import Mathlib

/-!
Shallow embedding of the key-rotation request-forwarding core of the
gemini-key-rotator repository (src/core-backend: key-manager.ts,
request-handler.ts, auth.ts), together with theorems checking the
natural-language specification against it.

Conventions of the embedding:
* JavaScript timestamps (`Date.now()`) become an explicit `now : Nat`
  argument threaded through the stateful operations.
* A per-key state `{ exhaustedUntil?: number }` becomes `Option Nat`;
  JavaScript truthiness of a number (`!state.exhaustedUntil` is true for
  `undefined` and for `0`) is modelled explicitly.
* The mutable `KeyManager` object becomes a `KeyManagerState` record that
  operations take and return.
-/

namespace Rotator

/-- One entry of `KeyManager.keyStates`: the optional `exhaustedUntil`
timestamp of a key (absent = never marked exhausted). -/
abbrev KeyState := Option Nat

/-- The JavaScript availability test `!state.exhaustedUntil || state.exhaustedUntil < now`
(key-manager.ts line 314 and `getActiveKeysCount`): available when the field is
absent, is `0` (falsy), or lies strictly in the past. -/
def isAvailableAt (e : KeyState) (now : Nat) : Bool :=
  match e with
  | none => true
  | some t => t == 0 || t < now

/-- The JavaScript exhaustion test `state.exhaustedUntil && state.exhaustedUntil > now`
(`getExhaustedKeysCount`): exhausted when the field is present, truthy (nonzero)
and strictly in the future. -/
def isExhaustedAt (e : KeyState) (now : Nat) : Bool :=
  match e with
  | none => false
  | some t => t != 0 && now < t

/-- The state of a `KeyManager` instance: the frozen key list, the
per-key states (same length, by construction) and the rotation cursor
`currentKeyIndex`. -/
structure KeyManagerState where
  keys : List String
  keyStates : List KeyState
  currentKeyIndex : Nat
  deriving Repr, DecidableEq

/-- Embeds the `KeyManager` constructor: copies the key list, one empty state per
key, cursor at 0.  (The constructor throws on an empty list; theorems that
need it carry `0 < keys.length` as a hypothesis.) -/
def mkKeyManager (apiKeys : List String) : KeyManagerState :=
  { keys := apiKeys
    keyStates := apiKeys.map (fun _ => none)
    currentKeyIndex := 0 }

/-- The scan inside `getNextAvailableKey`: the first offset
`i ∈ [0, keys.length)` such that the key at position
`(currentKeyIndex + i) % keys.length` is available now. -/
def scanForIndex (km : KeyManagerState) (now : Nat) : Option Nat :=
  (List.range km.keys.length).find? (fun i =>
    isAvailableAt (km.keyStates.getD ((km.currentKeyIndex + i) % km.keys.length) none) now)

/-- Embeds `KeyManager.getNextAvailableKey` (key-manager.ts lines 308-321): scans at
most N positions cyclically from the cursor; on the first available position
returns the key and its index and advances the cursor to `(index + 1) % N`;
returns `none` (JS `null`) with the state untouched if none is available. -/
def getNextAvailableKey (km : KeyManagerState) (now : Nat) :
    Option (String × Nat) × KeyManagerState :=
  match scanForIndex km now with
  | none => (none, km)
  | some i =>
    let idx := (km.currentKeyIndex + i) % km.keys.length
    (some (km.keys.getD idx "", idx),
     { km with currentKeyIndex := (idx + 1) % km.keys.length })

/-- The default cooldown `defaultExhaustionDurationMs = 60 * 60 * 1000`. -/
def defaultExhaustionDurationMs : Nat := 60 * 60 * 1000

/-- Embeds `KeyManager.markKeyAsExhausted` (key-manager.ts lines 323-333): no-op when
the index is out of range, otherwise overwrites that key's state with
`exhaustedUntil = now + duration` (default one hour). -/
def markKeyAsExhausted (km : KeyManagerState) (keyIndex : Nat) (durationMs : Option Nat)
    (now : Nat) : KeyManagerState :=
  if km.keys.length ≤ keyIndex then km
  else
    { km with keyStates :=
        km.keyStates.set keyIndex (some (now + durationMs.getD defaultExhaustionDurationMs)) }

/-- Embeds `KeyManager.getTotalKeys`. -/
def getTotalKeys (km : KeyManagerState) : Nat :=
  km.keys.length

/-- Embeds `KeyManager.getActiveKeysCount`. -/
def getActiveKeysCount (km : KeyManagerState) (now : Nat) : Nat :=
  (km.keyStates.filter (fun s => isAvailableAt s now)).length

/-- Embeds `KeyManager.getExhaustedKeysCount`. -/
def getExhaustedKeysCount (km : KeyManagerState) (now : Nat) : Nat :=
  (km.keyStates.filter (fun s => isExhaustedAt s now)).length

/-- The key-manager state after `k` successive `getNextAvailableKey` calls
(with no intervening `markKeyAsExhausted` and a fixed clock). -/
def iterateSelect (km : KeyManagerState) (now : Nat) : Nat → KeyManagerState
  | 0 => km
  | k + 1 => (getNextAvailableKey (iterateSelect km now k) now).2

/-! Embedding of `auth.ts` (`isAuthorized`).  Inbound headers are modelled as
an association list of name/value pairs; `Headers.get` matches the header name
case-insensitively and yields the value of the first match. -/

/-- ASCII lowercasing of one character (header names are ASCII). -/
def lowerChar (c : Char) : Char :=
  if c.toNat < 65 ∨ 90 < c.toNat then c else Char.ofNat (c.toNat + 32)

/-- Header names compare byte-lowercased (the WHATWG `Headers` model). -/
def headerNameMatches (a b : String) : Bool :=
  a.data.map lowerChar == b.data.map lowerChar

/-- Embeds `Headers.get`: case-insensitive lookup of a header's value. -/
def headersGet (requestHeaders : List (String × String)) (name : String) : Option String :=
  (requestHeaders.find? (fun p => headerNameMatches p.1 name)).map (fun p => p.2)

/-- JavaScript falsiness of an optional string: `undefined` and `""` are falsy. -/
def jsStrFalsy (s : Option String) : Bool :=
  match s with
  | none => true
  | some t => t == ""

/-- Embeds `isAuthorized` (auth.ts lines 355-370): authorized when no access token is
configured (JS truthiness: absent or empty string), otherwise iff the
`X-Access-Token` header's value strictly equals the configured token
(`Headers.get` yields `null` for an absent header, and `null !== string`). -/
def isAuthorized (requestHeaders : List (String × String))
    (configuredAccessToken : Option String) : Bool :=
  if jsStrFalsy configuredAccessToken then true
  else if headersGet requestHeaders "X-Access-Token" == configuredAccessToken then true
  else false

/-! Embedding of the upstream-URL construction in `handleRoutedRequest`
(request-handler.ts lines 152-155 and 188-189).  A URL is modelled by its
scheme, authority (host and port), path and decoded query pairs. -/

/-- A parsed URL: scheme, authority (host:port), absolute path, query pairs. -/
structure UrlParts where
  scheme : String
  host : String
  path : String
  query : List (String × String)
  deriving Repr, DecidableEq

/-- Embeds `URLSearchParams.set name value`: overwrite the first pair with that name
and drop any later ones; append the pair when the name is absent. -/
def searchParamsSet : List (String × String) → String → String → List (String × String)
  | [], name, value => [(name, value)]
  | p :: rest, name, value =>
    if p.1 == name then (name, value) :: rest.filter (fun q => q.1 != name)
    else p :: searchParamsSet rest name value

/-- Embeds `URLSearchParams.get`: value of the first pair with the given name. -/
def queryGet (q : List (String × String)) (name : String) : Option String :=
  (q.find? (fun p => p.1 == name)).map (fun p => p.2)

/-- The WHATWG resolution `new URL(ref, base)` for the only case the code
exercises: `ref` is `originalUrl.pathname + originalUrl.search`, and the
`pathname` of an http(s) URL always begins with `/`, so `ref` is an
absolute-path reference.  Resolution then keeps only the scheme and authority
of the base URL — the base URL's own path and query are discarded — and takes
path and query from the reference. -/
def resolveAbsolutePathRef (refPath : String) (refQuery : List (String × String))
    (base : UrlParts) : UrlParts :=
  { scheme := base.scheme, host := base.host, path := refPath, query := refQuery }

/-- The target URL built by `handleRoutedRequest`:
`targetUrl = new URL(originalUrl.pathname + originalUrl.search, geminiApiBaseUrl)`
followed by `targetUrl.searchParams.set("key", apiKey)`. -/
def buildTargetUrl (geminiApiBaseUrl : UrlParts) (inboundPath : String)
    (inboundQuery : List (String × String)) (apiKey : String) : UrlParts :=
  let t := resolveAbsolutePathRef inboundPath inboundQuery geminiApiBaseUrl
  { t with query := searchParamsSet t.query "key" apiKey }

/-- Modelled from the spec claim's words, for comparison with `buildTargetUrl`:
"the upstream base address followed by the inbound path and the inbound query
string", i.e. plain concatenation of the base address (including its own path)
with the forwarded path, the credential attached as the `key` query
parameter. -/
def claimedTargetUrl (geminiApiBaseUrl : UrlParts) (inboundPath : String)
    (inboundQuery : List (String × String)) (apiKey : String) : UrlParts :=
  { scheme := geminiApiBaseUrl.scheme, host := geminiApiBaseUrl.host,
    path := geminiApiBaseUrl.path ++ inboundPath,
    query := searchParamsSet inboundQuery "key" apiKey }

/-! Embedding of the retry loop of `handleRoutedRequest`
(request-handler.ts lines 175-243).  The upstream `fetch` is an oracle
mapping the attempt number and selected key index to its outcome; header
shaping (hop-by-hop stripping, CORS headers) carries no claim-relevant state
and is not modelled.  The loop `while (attemptCount < maxAttempts)` is run on
the fuel `maxAttempts - attemptCount`, which the code decrements by
incrementing `attemptCount` each iteration, so the recursion is structural. -/

/-- The observable part of an upstream or synthetic `Response`: status,
status text and body. -/
structure UpstreamResponse where
  status : Nat
  statusText : String
  body : String
  deriving Repr, DecidableEq

/-- Outcome of one `fetch` call: a response, or a thrown network error. -/
inductive FetchResult where
  | ok (resp : UpstreamResponse)
  | networkError
  deriving Repr, DecidableEq

/-- Builds `new Response(body, status)` — the synthetic responses the handler
builds (default empty status text). -/
def mkResponse (status : Nat) (body : String) : UpstreamResponse :=
  { status := status, statusText := "", body := body }

/-- Statuses `[401, 403, 429]` treated as key-specific auth/quota
signals. -/
def quotaStatuses : List Nat := [401, 403, 429]

/-- Result of a `handleRoutedRequest` run: the returned response, the key
indices used for upstream calls in order, and the final key-manager state. -/
structure ForwardResult where
  response : UpstreamResponse
  attempts : List Nat
  km : KeyManagerState
  deriving Repr, DecidableEq

/-- The body of the synthetic total-exhaustion response. -/
def exhaustedBody : String := "All API keys are exhausted (quota exceeded)."

/-- The body of the synthetic 502 response. -/
def badGatewayBody : String := "Internal server error after multiple fetch attempts."

/-- The body of the defensive 500 fallback after the loop. -/
def fallbackBody : String := "Failed to process request after trying all available API keys."

/-- Embeds the `while (attemptCount < maxAttempts)` loop of `handleRoutedRequest`:
`fuel = maxAttempts - attemptCount` iterations remain; each iteration
increments `attemptCount`, asks for the next available key (returning the
synthetic 429 when none is available), performs the upstream call, and either
marks the key exhausted and retries, or returns.  `acc` accumulates the key
indices used for upstream calls. -/
def forwardLoop (upstream : Nat → Nat → FetchResult) (now : Nat) (maxAttempts : Nat) :
    Nat → Nat → KeyManagerState → List Nat → ForwardResult
  | 0, _, km, acc =>
    { response := mkResponse 500 fallbackBody, attempts := acc, km := km }
  | fuel + 1, attemptCount, km, acc =>
    match getNextAvailableKey km now with
    | (none, km') =>
      { response := mkResponse 429 exhaustedBody, attempts := acc, km := km' }
    | (some (_apiKey, keyIndex), km') =>
      match upstream (attemptCount + 1) keyIndex with
      | FetchResult.ok resp =>
        if resp.status ∈ quotaStatuses ∧ attemptCount + 1 < maxAttempts then
          forwardLoop upstream now maxAttempts fuel (attemptCount + 1)
            (markKeyAsExhausted km' keyIndex none now) (acc ++ [keyIndex])
        else
          { response := resp, attempts := acc ++ [keyIndex], km := km' }
      | FetchResult.networkError =>
        if maxAttempts ≤ attemptCount + 1 then
          { response := mkResponse 502 badGatewayBody, attempts := acc ++ [keyIndex],
            km := markKeyAsExhausted km' keyIndex none now }
        else
          forwardLoop upstream now maxAttempts fuel (attemptCount + 1)
            (markKeyAsExhausted km' keyIndex none now) (acc ++ [keyIndex])

/-- Runs `handleRoutedRequest`'s attempt loop from the initial state:
`maxAttempts = keyManager.getTotalKeys()`, `attemptCount = 0`. -/
def handleRoutedRequest (upstream : Nat → Nat → FetchResult) (now : Nat)
    (km : KeyManagerState) : ForwardResult :=
  forwardLoop upstream now (getTotalKeys km) (getTotalKeys km) 0 km []

/-! Helper lemmas shared by the claim theorems. -/

theorem getD_mem_of_lt {α : Type} (l : List α) (i : Nat) (d : α) (h : i < l.length) :
    l.getD i d ∈ l := by
  rw [List.getD_eq_getElem?_getD, List.getElem?_eq_getElem h]
  exact List.getElem_mem h

theorem getD_set_self {α : Type} (l : List α) (i : Nat) (v d : α) (h : i < l.length) :
    (l.set i v).getD i d = v := by
  rw [List.getD_eq_getElem?_getD]
  simp [List.getElem?_set, h]

theorem getD_set_ne {α : Type} (l : List α) (i j : Nat) (v d : α) (h : i ≠ j) :
    (l.set i v).getD j d = l.getD j d := by
  rw [List.getD_eq_getElem?_getD, List.getElem?_set_ne h, ← List.getD_eq_getElem?_getD]

theorem scanForIndex_eq_none_of_exhausted (km : KeyManagerState) (now : Nat)
    (hlen : km.keyStates.length = km.keys.length)
    (hexh : ∀ s ∈ km.keyStates, isAvailableAt s now = false) :
    scanForIndex km now = none := by
  rw [scanForIndex, List.find?_eq_none]
  intro i hi
  have hiN : i < km.keys.length := List.mem_range.mp hi
  have hN : 0 < km.keys.length := Nat.lt_of_le_of_lt (Nat.zero_le i) hiN
  have hidx : (km.currentKeyIndex + i) % km.keys.length < km.keyStates.length := by
    rw [hlen]
    exact Nat.mod_lt _ hN
  have hfalse := hexh _ (getD_mem_of_lt km.keyStates _ none hidx)
  rw [List.getD_eq_getElem?_getD] at hfalse
  simp [hfalse]

theorem getNext_none_of_exhausted (km : KeyManagerState) (now : Nat)
    (hlen : km.keyStates.length = km.keys.length)
    (hexh : ∀ s ∈ km.keyStates, isAvailableAt s now = false) :
    getNextAvailableKey km now = (none, km) := by
  rw [getNextAvailableKey, scanForIndex_eq_none_of_exhausted km now hlen hexh]

theorem getNext_some_spec (km : KeyManagerState) (now : Nat) (key : String) (idx : Nat)
    (km' : KeyManagerState)
    (h : getNextAvailableKey km now = (some (key, idx), km')) :
    km'.keys = km.keys ∧ km'.keyStates = km.keyStates ∧
    idx < km.keys.length ∧
    isAvailableAt (km.keyStates.getD idx none) now = true ∧
    key = km.keys.getD idx "" ∧
    km'.currentKeyIndex = (idx + 1) % km.keys.length := by
  rw [getNextAvailableKey] at h
  cases hscan : scanForIndex km now with
  | none => rw [hscan] at h; simp at h
  | some i =>
    rw [hscan] at h
    simp only [Prod.mk.injEq, Option.some.injEq, Prod.mk.injEq] at h
    obtain ⟨⟨hkey, hidx⟩, hkm⟩ := h
    have hiN : i < km.keys.length := by
      have := List.mem_of_find?_eq_some hscan
      exact List.mem_range.mp this
    have hN : 0 < km.keys.length := Nat.lt_of_le_of_lt (Nat.zero_le i) hiN
    have havail := List.find?_some hscan
    subst hkey hidx
    refine ⟨by rw [← hkm], by rw [← hkm], Nat.mod_lt _ hN, by simpa using havail, rfl, by rw [← hkm]⟩

theorem getNext_all_available (km : KeyManagerState) (now : Nat)
    (hlen : km.keyStates.length = km.keys.length)
    (hcur : km.currentKeyIndex < km.keys.length)
    (hall : ∀ s ∈ km.keyStates, isAvailableAt s now = true) :
    getNextAvailableKey km now =
      (some (km.keys.getD km.currentKeyIndex "", km.currentKeyIndex),
       { km with currentKeyIndex := (km.currentKeyIndex + 1) % km.keys.length }) := by
  have hN : 0 < km.keys.length := Nat.lt_of_le_of_lt (Nat.zero_le _) hcur
  obtain ⟨m, hm⟩ : ∃ m, km.keys.length = m + 1 := ⟨km.keys.length - 1, by omega⟩
  have hscan : scanForIndex km now = some 0 := by
    rw [scanForIndex, hm, List.range_succ_eq_map]
    apply List.find?_cons_of_pos
    show isAvailableAt (km.keyStates.getD ((km.currentKeyIndex + 0) % (m + 1)) none) now = true
    apply hall
    apply getD_mem_of_lt
    rw [hlen, hm]
    exact Nat.mod_lt _ (Nat.succ_pos m)
  rw [getNextAvailableKey, hscan]
  simp [Nat.add_zero, Nat.mod_eq_of_lt hcur]

theorem mod_succ_cycle (a n : Nat) : (a % n + 1) % n = (a + 1) % n := by
  conv_lhs => rw [Nat.add_mod]
  conv_rhs => rw [Nat.add_mod]
  rw [Nat.mod_mod_of_dvd a (dvd_refl n)]

theorem iterateSelect_all_available (km : KeyManagerState) (now : Nat)
    (hlen : km.keyStates.length = km.keys.length)
    (hcur : km.currentKeyIndex < km.keys.length)
    (hall : ∀ s ∈ km.keyStates, isAvailableAt s now = true) :
    ∀ k, (iterateSelect km now k).keys = km.keys ∧
      (iterateSelect km now k).keyStates = km.keyStates ∧
      (iterateSelect km now k).currentKeyIndex = (km.currentKeyIndex + k) % km.keys.length := by
  intro k
  induction k with
  | zero =>
    refine ⟨rfl, rfl, ?_⟩
    rw [Nat.add_zero, Nat.mod_eq_of_lt hcur]
    rfl
  | succ k ih =>
    obtain ⟨hkeys, hstates, hcursor⟩ := ih
    have hN : 0 < km.keys.length := Nat.lt_of_le_of_lt (Nat.zero_le _) hcur
    have hstep := getNext_all_available (iterateSelect km now k) now
      (by rw [hkeys, hstates]; exact hlen)
      (by rw [hkeys, hcursor]; exact Nat.mod_lt _ hN)
      (by rw [hstates]; exact hall)
    have : iterateSelect km now (k + 1) = (getNextAvailableKey (iterateSelect km now k) now).2 := rfl
    rw [this, hstep]
    refine ⟨hkeys, hstates, ?_⟩
    simp only [hkeys, hcursor]
    rw [mod_succ_cycle]
    rw [Nat.add_assoc]

theorem count_eq_one_of_nodup_mem {α : Type} [BEq α] [LawfulBEq α] {l : List α} {a : α}
    (hnd : l.Nodup) (ha : a ∈ l) : l.count a = 1 := by
  induction l with
  | nil => simp at ha
  | cons b t ih =>
    rw [List.count_cons]
    rcases List.mem_cons.mp ha with rfl | hmem
    · rw [List.count_eq_zero.mpr (List.nodup_cons.mp hnd).1]
      simp
    · have hne : a ≠ b := by
        rintro rfl
        exact (List.nodup_cons.mp hnd).1 hmem
      rw [ih (List.nodup_cons.mp hnd).2 hmem]
      simp [hne, Ne.symm hne]

theorem cycle_map_nodup (c N : Nat) :
    ((List.range N).map (fun k => (c + k) % N)).Nodup := by
  apply (List.nodup_range N).map_on
  intro k1 h1 k2 h2 heq
  have h1N := List.mem_range.mp h1
  have h2N := List.mem_range.mp h2
  have hmod : k1 ≡ k2 [MOD N] := Nat.ModEq.add_left_cancel' c heq
  have : k1 % N = k2 % N := hmod
  rwa [Nat.mod_eq_of_lt h1N, Nat.mod_eq_of_lt h2N] at this

theorem cycle_map_mem (c N j : Nat) (hc : c < N) (hj : j < N) :
    j ∈ (List.range N).map (fun k => (c + k) % N) := by
  apply List.mem_map.mpr
  refine ⟨(j + N - c) % N, List.mem_range.mpr (Nat.mod_lt _ (by omega)), ?_⟩
  have h1 : (c + (j + N - c) % N) % N = (c + (j + N - c)) % N := by
    conv_lhs => rw [Nat.add_mod]
    conv_rhs => rw [Nat.add_mod]
    rw [Nat.mod_mod_of_dvd _ (dvd_refl N)]
  rw [h1, show c + (j + N - c) = j + N by omega, Nat.add_mod_right, Nat.mod_eq_of_lt hj]

/-- C1: for a pool of size N ≥ 1 whose credentials are all non-exhausted, N
successive `getNextAvailableKey` calls with no intervening `markKeyAsExhausted`
return the credential indices in cyclic order starting from the cursor's
initial position — the k-th call returns index `(cursor + k) % N` and advances
the cursor to `(returned index + 1) % N` — and each credential index is
returned exactly once over the N calls. -/
theorem selectCredential_roundRobin (km : KeyManagerState) (now N : Nat)
    (hlen : km.keyStates.length = km.keys.length)
    (hkeys : km.keys.length = N)
    (hN : 0 < N)
    (hcur : km.currentKeyIndex < N)
    (hall : ∀ s ∈ km.keyStates, isAvailableAt s now = true) :
    (∀ k, k < N →
      (getNextAvailableKey (iterateSelect km now k) now).1
        = some (km.keys.getD ((km.currentKeyIndex + k) % N) "",
            (km.currentKeyIndex + k) % N) ∧
      (iterateSelect km now (k + 1)).currentKeyIndex
        = ((km.currentKeyIndex + k) % N + 1) % N) ∧
    (∀ j, j < N →
      ((List.range N).map (fun k =>
        ((getNextAvailableKey (iterateSelect km now k) now).1).map (fun r => r.2))).count
        (some j) = 1) := by
  subst hkeys
  have hfst : ∀ k, (getNextAvailableKey (iterateSelect km now k) now).1
      = some (km.keys.getD ((km.currentKeyIndex + k) % km.keys.length) "",
          (km.currentKeyIndex + k) % km.keys.length) := by
    intro k
    obtain ⟨hkeys_k, hstates_k, hcur_k⟩ := iterateSelect_all_available km now hlen hcur hall k
    have hstep := getNext_all_available (iterateSelect km now k) now
      (by rw [hkeys_k, hstates_k]; exact hlen)
      (by rw [hkeys_k, hcur_k]; exact Nat.mod_lt _ hN)
      (by rw [hstates_k]; exact hall)
    rw [hstep]
    simp only [hkeys_k, hcur_k]
  constructor
  · intro k _
    refine ⟨hfst k, ?_⟩
    obtain ⟨_, _, hcur_k1⟩ := iterateSelect_all_available km now hlen hcur hall (k + 1)
    rw [hcur_k1, ← Nat.add_assoc, ← mod_succ_cycle]
  · intro j hj
    have hmapeq : (List.range km.keys.length).map (fun k =>
          ((getNextAvailableKey (iterateSelect km now k) now).1).map (fun r => r.2))
        = ((List.range km.keys.length).map
            (fun k => (km.currentKeyIndex + k) % km.keys.length)).map some := by
      rw [List.map_map]
      apply List.map_congr_left
      intro k _
      rw [Function.comp_apply, hfst k]
      rfl
    rw [hmapeq]
    exact count_eq_one_of_nodup_mem
      ((cycle_map_nodup km.currentKeyIndex km.keys.length).map (Option.some_injective Nat))
      (List.mem_map_of_mem some (cycle_map_mem km.currentKeyIndex km.keys.length j hcur hj))

/-- Witness for C1 at a concrete pool of size 3 with all credentials fresh:
the third call returns index 2 and index 1 is returned exactly once. -/
theorem selectCredential_roundRobin_witness :
    ((getNextAvailableKey (iterateSelect
        { keys := ["k0", "k1", "k2"], keyStates := [none, none, none], currentKeyIndex := 0 }
        1000 2) 1000).1
      = some ((["k0", "k1", "k2"] : List String).getD ((0 + 2) % 3) "", (0 + 2) % 3) ∧
      (iterateSelect
        { keys := ["k0", "k1", "k2"], keyStates := [none, none, none], currentKeyIndex := 0 }
        1000 3).currentKeyIndex = ((0 + 2) % 3 + 1) % 3) ∧
    ((List.range 3).map (fun k =>
      ((getNextAvailableKey (iterateSelect
          { keys := ["k0", "k1", "k2"], keyStates := [none, none, none], currentKeyIndex := 0 }
          1000 k) 1000).1).map (fun r => r.2))).count (some 1) = 1 := by
  have h := selectCredential_roundRobin
    { keys := ["k0", "k1", "k2"], keyStates := [none, none, none], currentKeyIndex := 0 }
    1000 3 rfl rfl (by decide) (by decide) (by decide)
  exact ⟨h.1 2 (by decide), h.2 1 (by decide)⟩

/-- C5: when every position is exhausted at the instant of the call,
`getNextAvailableKey` returns `null` (here `none`) without an error and the
whole state — in particular the rotation cursor — is unchanged. -/
theorem selectCredential_allExhausted (km : KeyManagerState) (now : Nat)
    (hlen : km.keyStates.length = km.keys.length)
    (hexh : ∀ s ∈ km.keyStates, isAvailableAt s now = false) :
    getNextAvailableKey km now = (none, km) :=
  getNext_none_of_exhausted km now hlen hexh

/-- Witness for C5 at a concrete fully exhausted pool of size 2. -/
theorem selectCredential_allExhausted_witness :
    getNextAvailableKey
      { keys := ["a", "b"], keyStates := [some 9, some 9], currentKeyIndex := 1 } 5
      = (none, { keys := ["a", "b"], keyStates := [some 9, some 9], currentKeyIndex := 1 }) :=
  selectCredential_allExhausted
    { keys := ["a", "b"], keyStates := [some 9, some 9], currentKeyIndex := 1 } 5
    rfl (by decide)

/-- C10: `getNextAvailableKey` never changes the key list or any
per-credential `exhaustedUntil` value; the rotation cursor is the only state
component it may mutate. -/
theorem selectCredential_frame (km : KeyManagerState) (now : Nat) :
    ((getNextAvailableKey km now).2).keys = km.keys ∧
    ((getNextAvailableKey km now).2).keyStates = km.keyStates := by
  rw [getNextAvailableKey]
  cases scanForIndex km now with
  | none => exact ⟨rfl, rfl⟩
  | some i => exact ⟨rfl, rfl⟩

theorem filter_complement_length {α : Type} (p q : α → Bool) :
    ∀ l : List α, (∀ a ∈ l, q a = !p a) →
      (l.filter p).length + (l.filter q).length = l.length := by
  intro l
  induction l with
  | nil => intro _; rfl
  | cons a t ih =>
    intro h
    have ha := h a (List.mem_cons_self a t)
    have ht := ih (fun b hb => h b (List.mem_cons_of_mem a hb))
    cases hpa : p a with
    | true => simp [List.filter_cons, hpa, ha, ht]; omega
    | false => simp [List.filter_cons, hpa, ha, ht]; omega

/-- C8 as stated is false: a position whose `exhaustedUntil` equals `now`
exactly is counted by neither `getActiveKeysCount` (which requires
`exhaustedUntil < now`) nor `getExhaustedKeysCount` (which requires
`exhaustedUntil > now`), so with one key whose `exhaustedUntil` is 5 at
`now = 5` the exhausted count is 0 while total minus available is 1. -/
theorem counts_boundary_counterexample :
    getExhaustedKeysCount
        { keys := ["a"], keyStates := [some 5], currentKeyIndex := 0 } 5
      ≠ getTotalKeys { keys := ["a"], keyStates := [some 5], currentKeyIndex := 0 }
        - getActiveKeysCount
            { keys := ["a"], keyStates := [some 5], currentKeyIndex := 0 } 5 := by
  decide

/-- C8 amended: provided no position's `exhaustedUntil` is exactly the
current instant `now` (with `now` itself nonzero; a zero timestamp is falsy
and counts as absent), `getExhaustedKeysCount now` equals `getTotalKeys`
minus `getActiveKeysCount now`. -/
theorem exhausted_eq_total_sub_active (km : KeyManagerState) (now : Nat)
    (hlen : km.keyStates.length = km.keys.length)
    (hb : ∀ s ∈ km.keyStates, s ≠ some now ∨ now = 0) :
    getExhaustedKeysCount km now = getTotalKeys km - getActiveKeysCount km now := by
  have hcomp : ∀ s ∈ km.keyStates, isExhaustedAt s now = !isAvailableAt s now := by
    intro s hs
    cases s with
    | none => rfl
    | some t =>
      rcases hb (some t) hs with hne | h0
      · have htne : t ≠ now := fun h => hne (by rw [h])
        rcases Nat.lt_trichotomy t now with hlt | heq | hgt
        · have h1 : ¬ now < t := by omega
          simp [isExhaustedAt, isAvailableAt, hlt, h1]
        · exact absurd heq htne
        · have h1 : ¬ t < now := by omega
          have h2 : t ≠ 0 := by omega
          simp [isExhaustedAt, isAvailableAt, bne, hgt, h1, h2]
      · subst h0
        rcases Nat.eq_zero_or_pos t with h1 | h1
        · subst h1; rfl
        · have h2 : t ≠ 0 := by omega
          have h3 : ¬ t < 0 := by omega
          simp [isExhaustedAt, isAvailableAt, bne, h1, h2, h3]
  have hsum := filter_complement_length (fun s => isAvailableAt s now)
    (fun s => isExhaustedAt s now) km.keyStates hcomp
  rw [getExhaustedKeysCount, getActiveKeysCount, getTotalKeys, ← hlen]
  omega

/-- Witness for C8 amended at a concrete state with one exhausted and one
fresh key at `now = 3`. -/
theorem exhausted_eq_total_sub_active_witness :
    getExhaustedKeysCount
        { keys := ["a", "b"], keyStates := [some 10, none], currentKeyIndex := 0 } 3
      = getTotalKeys { keys := ["a", "b"], keyStates := [some 10, none], currentKeyIndex := 0 }
        - getActiveKeysCount
            { keys := ["a", "b"], keyStates := [some 10, none], currentKeyIndex := 0 } 3 :=
  exhausted_eq_total_sub_active
    { keys := ["a", "b"], keyStates := [some 10, none], currentKeyIndex := 0 } 3
    rfl (by decide)

/-- C9 as stated is false on one corner: the empty string is a configured
secret as far as the function's signature goes, but JavaScript truthiness
(`!configuredAccessToken`) treats it like no secret at all, so a request with
no `X-Access-Token` header is authorized even though the claim requires
`false` whenever a secret is configured and the header is absent. -/
theorem isAuthorized_emptySecret_counterexample :
    isAuthorized [] (some "") = true ∧ headersGet [] "X-Access-Token" = none := by
  constructor
  · rfl
  · rfl

/-- C9 amended: with no secret configured every request is authorized; with a
non-empty secret configured, authorized exactly when the `X-Access-Token`
header is present with a value exactly (case-sensitively) equal to the secret
— absent or mismatched header yields `false`; an empty-string secret is falsy
in JavaScript and behaves as if no secret were configured. -/
theorem isAuthorized_spec (requestHeaders : List (String × String)) :
    isAuthorized requestHeaders none = true ∧
    (∀ s : String, s ≠ "" →
      (isAuthorized requestHeaders (some s) = true ↔
        headersGet requestHeaders "X-Access-Token" = some s)) ∧
    isAuthorized requestHeaders (some "") = true := by
  refine ⟨rfl, ?_, rfl⟩
  intro s hs
  have hfalsy : jsStrFalsy (some s) = false := by
    simp [jsStrFalsy, hs]
  rw [isAuthorized, hfalsy]
  simp

/-- Witness for C9 amended: a matching header authorizes, a mismatched value
and an absent header do not. -/
theorem isAuthorized_spec_witness :
    isAuthorized [("X-Access-Token", "abc")] (some "abc") = true ∧
    isAuthorized [("X-Access-Token", "wrong")] (some "abc") = false ∧
    isAuthorized [] (some "abc") = false := by
  refine ⟨?_, ?_, ?_⟩
  · exact ((isAuthorized_spec [("X-Access-Token", "abc")]).2.1 "abc" (by decide)).mpr (by decide)
  · have h := (isAuthorized_spec [("X-Access-Token", "wrong")]).2.1 "abc" (by decide)
    cases hv : isAuthorized [("X-Access-Token", "wrong")] (some "abc") with
    | false => rfl
    | true => exact absurd (h.mp hv) (by decide)
  · have h := (isAuthorized_spec []).2.1 "abc" (by decide)
    cases hv : isAuthorized [] (some "abc") with
    | false => rfl
    | true => exact absurd (h.mp hv) (by decide)

theorem find?_filter_of_imp {α : Type} (p f : α → Bool) :
    ∀ l : List α, (∀ a, p a = true → f a = true) → (l.filter f).find? p = l.find? p := by
  intro l himp
  induction l with
  | nil => rfl
  | cons a t ih =>
    cases hf : f a with
    | true =>
      rw [List.filter_cons_of_pos hf]
      cases hp : p a with
      | true => rw [List.find?_cons_of_pos _ hp, List.find?_cons_of_pos _ hp]
      | false => rw [List.find?_cons_of_neg _ (by simp [hp]), List.find?_cons_of_neg _ (by simp [hp]), ih]
    | false =>
      rw [List.filter_cons_of_neg (by simp [hf])]
      have hp : p a = false := by
        cases hpa : p a with
        | false => rfl
        | true => rw [himp a hpa] at hf; exact absurd hf (by simp)
      rw [List.find?_cons_of_neg _ (by simp [hp]), ih]

theorem queryGet_cons (p : String × String) (rest : List (String × String)) (m : String) :
    queryGet (p :: rest) m = if p.1 == m then some p.2 else queryGet rest m := by
  rw [queryGet, queryGet, List.find?_cons]
  cases h : p.1 == m with
  | true => simp [h]
  | false => simp [h]

theorem queryGet_searchParamsSet_self (q : List (String × String)) (name value : String) :
    queryGet (searchParamsSet q name value) name = some value := by
  induction q with
  | nil =>
    rw [searchParamsSet, queryGet_cons]
    simp
  | cons p rest ih =>
    rw [searchParamsSet]
    cases hp : p.1 == name with
    | true =>
      rw [if_pos rfl, queryGet_cons]
      simp
    | false =>
      rw [if_neg (by simp), queryGet_cons, if_neg (by simp [hp]), ih]

theorem queryGet_searchParamsSet_other (q : List (String × String)) (name value m : String)
    (hm : m ≠ name) :
    queryGet (searchParamsSet q name value) m = queryGet q m := by
  induction q with
  | nil =>
    rw [searchParamsSet, queryGet_cons, if_neg (by simp [Ne.symm hm])]
  | cons p rest ih =>
    rw [searchParamsSet]
    cases hp : p.1 == name with
    | true =>
      have hp1 : p.1 = name := by simpa using hp
      rw [if_pos rfl, queryGet_cons, if_neg (by simp [Ne.symm hm]), queryGet_cons,
        if_neg (by simp [hp1, Ne.symm hm])]
      have himp : ∀ a : String × String,
          (fun p : String × String => p.1 == m) a = true →
          (fun q : String × String => q.1 != name) a = true := by
        intro a ha
        have ha1 : a.1 = m := by simpa using ha
        simp [bne, ha1, hm]
      rw [queryGet, queryGet, find?_filter_of_imp _ _ rest himp]
    | false =>
      rw [if_neg (by simp), queryGet_cons, queryGet_cons, ih]

/-- C7 as stated is false: the code builds the target with
`new URL(pathname + search, geminiApiBaseUrl)`, and because the forwarded
path is absolute, URL resolution discards the base address's own path
component, keeping only its scheme and authority.  With the base address
`https://example.com/v1beta2` and inbound path `/models`, the claim's
"base address followed by the inbound path" would be
`https://example.com/v1beta2/models`, but the code produces
`https://example.com/models`. -/
theorem targetUrl_counterexample :
    buildTargetUrl
        { scheme := "https", host := "example.com", path := "/v1beta2", query := [] }
        "/models" [] "k"
      ≠ claimedTargetUrl
        { scheme := "https", host := "example.com", path := "/v1beta2", query := [] }
        "/models" [] "k" := by
  decide

/-- C7 amended: the target URL keeps the upstream base address's scheme and
authority only (the base address's own path is discarded because the
forwarded path is absolute), takes path and query from the inbound request,
and carries the selected credential as the query parameter named `key`, all
other inbound query parameters being looked up unchanged. -/
theorem targetUrl_spec (base : UrlParts) (inboundPath : String)
    (inboundQuery : List (String × String)) (apiKey : String) :
    (buildTargetUrl base inboundPath inboundQuery apiKey).scheme = base.scheme ∧
    (buildTargetUrl base inboundPath inboundQuery apiKey).host = base.host ∧
    (buildTargetUrl base inboundPath inboundQuery apiKey).path = inboundPath ∧
    queryGet (buildTargetUrl base inboundPath inboundQuery apiKey).query "key" = some apiKey ∧
    (∀ m, m ≠ "key" →
      queryGet (buildTargetUrl base inboundPath inboundQuery apiKey).query m
        = queryGet inboundQuery m) := by
  refine ⟨rfl, rfl, rfl, ?_, ?_⟩
  · exact queryGet_searchParamsSet_self inboundQuery "key" apiKey
  · intro m hm
    exact queryGet_searchParamsSet_other inboundQuery "key" apiKey m hm

/-- Witness for C7 amended at a base address with a path, an inbound query
parameter `alt=json` and credential `k`. -/
theorem targetUrl_spec_witness :
    (buildTargetUrl
        { scheme := "https", host := "example.com", path := "/v1beta2", query := [] }
        "/models" [("alt", "json")] "k").path = "/models" ∧
    queryGet (buildTargetUrl
        { scheme := "https", host := "example.com", path := "/v1beta2", query := [] }
        "/models" [("alt", "json")] "k").query "key" = some "k" ∧
    queryGet (buildTargetUrl
        { scheme := "https", host := "example.com", path := "/v1beta2", query := [] }
        "/models" [("alt", "json")] "k").query "alt" = some "json" := by
  have h := targetUrl_spec
    { scheme := "https", host := "example.com", path := "/v1beta2", query := [] }
    "/models" [("alt", "json")] "k"
  refine ⟨h.2.2.1, h.2.2.2.1, ?_⟩
  rw [h.2.2.2.2 "alt" (by decide)]
  rfl

theorem markKeyAsExhausted_inbounds (km : KeyManagerState) (i : Nat) (dur : Option Nat)
    (now : Nat) (h : i < km.keys.length) :
    markKeyAsExhausted km i dur now
      = { km with keyStates :=
            km.keyStates.set i (some (now + dur.getD defaultExhaustionDurationMs)) } := by
  rw [markKeyAsExhausted, if_neg (by omega)]

theorem isAvailableAt_future_false (now t : Nat) (h1 : t ≠ 0) (h2 : ¬ t < now) :
    isAvailableAt (some t) now = false := by
  simp [isAvailableAt, h1, h2]

theorem mark_step_invariants (km km' : KeyManagerState) (now : Nat) (key : String) (idx : Nat)
    (acc : List Nat)
    (hlen : km.keyStates.length = km.keys.length)
    (hnd : acc.Nodup)
    (hun : ∀ i ∈ acc, isAvailableAt (km.keyStates.getD i none) now = false)
    (hsel : getNextAvailableKey km now = (some (key, idx), km')) :
    (markKeyAsExhausted km' idx none now).keyStates.length
      = (markKeyAsExhausted km' idx none now).keys.length ∧
    (acc ++ [idx]).Nodup ∧
    (∀ i ∈ acc ++ [idx],
      isAvailableAt ((markKeyAsExhausted km' idx none now).keyStates.getD i none) now
        = false) := by
  obtain ⟨hkeys, hstates, hidxlt, havail, _, _⟩ := getNext_some_spec km now key idx km' hsel
  have hidxlt' : idx < km'.keys.length := by rw [hkeys]; exact hidxlt
  have hmark := markKeyAsExhausted_inbounds km' idx none now hidxlt'
  have hms : (markKeyAsExhausted km' idx none now).keyStates
      = km.keyStates.set idx (some (now + defaultExhaustionDurationMs)) := by
    rw [hmark, hstates]
    rfl
  have hmk : (markKeyAsExhausted km' idx none now).keys = km.keys := by
    rw [hmark]
    exact hkeys
  have hnotin : idx ∉ acc := by
    intro hmem
    rw [hun idx hmem] at havail
    exact absurd havail (by simp)
  refine ⟨?_, ?_, ?_⟩
  · rw [hms, hmk, List.length_set]
    exact hlen
  · simp [List.nodup_append, hnd, hnotin]
  · intro i hi
    rw [hms]
    rcases List.mem_append.mp hi with hia | hii
    · have hne : idx ≠ i := fun h => hnotin (h ▸ hia)
      rw [getD_set_ne _ _ _ _ _ hne]
      exact hun i hia
    · have hieq : i = idx := by simpa using hii
      subst hieq
      rw [getD_set_self _ _ _ _ (by rw [hlen]; exact hidxlt)]
      exact isAvailableAt_future_false now _ (by simp [defaultExhaustionDurationMs]) (by omega)

theorem forwardLoop_succ (upstream : Nat → Nat → FetchResult) (now maxAttempts fuel cnt : Nat)
    (km : KeyManagerState) (acc : List Nat) :
    forwardLoop upstream now maxAttempts (fuel + 1) cnt km acc
      = match getNextAvailableKey km now with
        | (none, km') =>
          { response := mkResponse 429 exhaustedBody, attempts := acc, km := km' }
        | (some (_key, keyIndex), km') =>
          match upstream (cnt + 1) keyIndex with
          | FetchResult.ok resp =>
            if resp.status ∈ quotaStatuses ∧ cnt + 1 < maxAttempts then
              forwardLoop upstream now maxAttempts fuel (cnt + 1)
                (markKeyAsExhausted km' keyIndex none now) (acc ++ [keyIndex])
            else { response := resp, attempts := acc ++ [keyIndex], km := km' }
          | FetchResult.networkError =>
            if maxAttempts ≤ cnt + 1 then
              { response := mkResponse 502 badGatewayBody, attempts := acc ++ [keyIndex],
                km := markKeyAsExhausted km' keyIndex none now }
            else forwardLoop upstream now maxAttempts fuel (cnt + 1)
              (markKeyAsExhausted km' keyIndex none now) (acc ++ [keyIndex]) := rfl

theorem forwardLoop_attempts (upstream : Nat → Nat → FetchResult) (now maxAttempts : Nat) :
    ∀ (fuel attemptCount : Nat) (km : KeyManagerState) (acc : List Nat),
      km.keyStates.length = km.keys.length →
      acc.Nodup →
      (∀ i ∈ acc, isAvailableAt (km.keyStates.getD i none) now = false) →
      ∃ extra,
        (forwardLoop upstream now maxAttempts fuel attemptCount km acc).attempts
          = acc ++ extra ∧ extra.length ≤ fuel ∧ (acc ++ extra).Nodup := by
  intro fuel
  induction fuel with
  | zero =>
    intro cnt km acc hlen hnd hun
    exact ⟨[], by simp [forwardLoop], by simp, by simpa using hnd⟩
  | succ fuel ih =>
    intro cnt km acc hlen hnd hun
    cases hsel : getNextAvailableKey km now with
    | mk res km' =>
      cases res with
      | none =>
        refine ⟨[], ?_, by simp, by simpa using hnd⟩
        rw [forwardLoop_succ, hsel]
        simp
      | some pair =>
        obtain ⟨key, idx⟩ := pair
        obtain ⟨hmlen, hndx, hunx⟩ := mark_step_invariants km km' now key idx acc hlen hnd hun hsel
        cases hup : upstream (cnt + 1) idx with
        | ok resp =>
          by_cases hq : resp.status ∈ quotaStatuses ∧ cnt + 1 < maxAttempts
          · obtain ⟨extra, heq, hle, hnd2⟩ :=
              ih (cnt + 1) (markKeyAsExhausted km' idx none now) (acc ++ [idx]) hmlen hndx hunx
            refine ⟨idx :: extra, ?_, by simp; omega, ?_⟩
            · rw [forwardLoop_succ, hsel]
              dsimp only
              rw [hup]
              dsimp only
              rw [if_pos hq, heq, List.append_assoc]
              rfl
            · rw [show acc ++ idx :: extra = (acc ++ [idx]) ++ extra by
                rw [List.append_assoc]; rfl]
              exact hnd2
          · refine ⟨[idx], ?_, by simp, hndx⟩
            rw [forwardLoop_succ, hsel]
            dsimp only
            rw [hup]
            dsimp only
            rw [if_neg hq]
        | networkError =>
          by_cases hmax : maxAttempts ≤ cnt + 1
          · refine ⟨[idx], ?_, by simp, hndx⟩
            rw [forwardLoop_succ, hsel]
            dsimp only
            rw [hup]
            dsimp only
            rw [if_pos hmax]
          · obtain ⟨extra, heq, hle, hnd2⟩ :=
              ih (cnt + 1) (markKeyAsExhausted km' idx none now) (acc ++ [idx]) hmlen hndx hunx
            refine ⟨idx :: extra, ?_, by simp; omega, ?_⟩
            · rw [forwardLoop_succ, hsel]
              dsimp only
              rw [hup]
              dsimp only
              rw [if_neg hmax, heq, List.append_assoc]
              rfl
            · rw [show acc ++ idx :: extra = (acc ++ [idx]) ++ extra by
                rw [List.append_assoc]; rfl]
              exact hnd2

/-- C2: one logical request performs at most N upstream attempts (N = pool
size), the loop terminates (the embedding is structurally recursive on the
very bound `maxAttempts - attemptCount` the code counts down), and no
credential index appears twice among the upstream attempts of that
request. -/
theorem forward_bounded_attempts (upstream : Nat → Nat → FetchResult) (now : Nat)
    (km : KeyManagerState)
    (hlen : km.keyStates.length = km.keys.length) :
    (handleRoutedRequest upstream now km).attempts.length ≤ getTotalKeys km ∧
    (handleRoutedRequest upstream now km).attempts.Nodup := by
  obtain ⟨extra, heq, hle, hnd⟩ := forwardLoop_attempts upstream now (getTotalKeys km)
    (getTotalKeys km) 0 km [] hlen (by simp) (by simp)
  rw [handleRoutedRequest, heq]
  simpa using ⟨hle, hnd⟩

/-- Witness for C2: a concrete pool of size 3 against an upstream that always
answers 429. -/
theorem forward_bounded_attempts_witness :
    (handleRoutedRequest (fun _ _ => FetchResult.ok (mkResponse 429 "quota")) 1000
      { keys := ["k0", "k1", "k2"], keyStates := [none, none, none],
        currentKeyIndex := 0 }).attempts.length
      ≤ getTotalKeys
        { keys := ["k0", "k1", "k2"], keyStates := [none, none, none], currentKeyIndex := 0 } ∧
    (handleRoutedRequest (fun _ _ => FetchResult.ok (mkResponse 429 "quota")) 1000
      { keys := ["k0", "k1", "k2"], keyStates := [none, none, none],
        currentKeyIndex := 0 }).attempts.Nodup :=
  forward_bounded_attempts (fun _ _ => FetchResult.ok (mkResponse 429 "quota")) 1000
    { keys := ["k0", "k1", "k2"], keyStates := [none, none, none], currentKeyIndex := 0 } rfl

/-- C4: when every credential is already exhausted, `handleRoutedRequest`
performs zero upstream calls and returns the synthetic plain-text 429
total-exhaustion response. -/
theorem forward_allExhausted (upstream : Nat → Nat → FetchResult) (now : Nat)
    (km : KeyManagerState)
    (hlen : km.keyStates.length = km.keys.length)
    (hN : 0 < km.keys.length)
    (hexh : ∀ s ∈ km.keyStates, isAvailableAt s now = false) :
    (handleRoutedRequest upstream now km).attempts = [] ∧
    (handleRoutedRequest upstream now km).response = mkResponse 429 exhaustedBody := by
  obtain ⟨m, hm⟩ : ∃ m, km.keys.length = m + 1 := ⟨km.keys.length - 1, by omega⟩
  have hrun : handleRoutedRequest upstream now km
      = { response := mkResponse 429 exhaustedBody, attempts := [], km := km } := by
    rw [handleRoutedRequest, getTotalKeys, hm, forwardLoop_succ,
      getNext_none_of_exhausted km now hlen hexh]
  rw [hrun]
  exact ⟨rfl, rfl⟩

/-- Witness for C4 at a concrete fully exhausted pool of size 2. -/
theorem forward_allExhausted_witness :
    (handleRoutedRequest (fun _ _ => FetchResult.ok (mkResponse 200 "ok")) 5
      { keys := ["a", "b"], keyStates := [some 9, some 9], currentKeyIndex := 0 }).attempts
      = [] ∧
    (handleRoutedRequest (fun _ _ => FetchResult.ok (mkResponse 200 "ok")) 5
      { keys := ["a", "b"], keyStates := [some 9, some 9], currentKeyIndex := 0 }).response
      = mkResponse 429 exhaustedBody :=
  forward_allExhausted (fun _ _ => FetchResult.ok (mkResponse 200 "ok")) 5
    { keys := ["a", "b"], keyStates := [some 9, some 9], currentKeyIndex := 0 }
    rfl (by decide) (by decide)

/-- C6: when an attempt's upstream fetch throws (transport failure), the
selected credential is marked exhausted — its state becomes unavailable at
`now` — and the loop either returns the synthetic 502 if this was the final
attempt (`attemptCount ≥ maxAttempts` after the increment) or continues with
the loop body on the remaining attempts otherwise. -/
theorem forward_networkError_step (upstream : Nat → Nat → FetchResult)
    (now maxAttempts fuel attemptCount : Nat) (km km' : KeyManagerState) (acc : List Nat)
    (key : String) (idx : Nat)
    (hlen : km.keyStates.length = km.keys.length)
    (hsel : getNextAvailableKey km now = (some (key, idx), km'))
    (hfail : upstream (attemptCount + 1) idx = FetchResult.networkError) :
    isAvailableAt ((markKeyAsExhausted km' idx none now).keyStates.getD idx none) now
      = false ∧
    (maxAttempts ≤ attemptCount + 1 →
      forwardLoop upstream now maxAttempts (fuel + 1) attemptCount km acc
        = { response := mkResponse 502 badGatewayBody, attempts := acc ++ [idx],
            km := markKeyAsExhausted km' idx none now }) ∧
    (attemptCount + 1 < maxAttempts →
      forwardLoop upstream now maxAttempts (fuel + 1) attemptCount km acc
        = forwardLoop upstream now maxAttempts fuel (attemptCount + 1)
            (markKeyAsExhausted km' idx none now) (acc ++ [idx])) := by
  obtain ⟨_, _, hunav⟩ :=
    mark_step_invariants km km' now key idx [] hlen (by simp) (by simp) hsel
  refine ⟨hunav idx (by simp), ?_, ?_⟩
  · intro hmax
    rw [forwardLoop_succ, hsel]
    dsimp only
    rw [hfail]
    dsimp only
    rw [if_pos hmax]
  · intro hlt
    rw [forwardLoop_succ, hsel]
    dsimp only
    rw [hfail]
    dsimp only
    rw [if_neg (by omega)]

/-- Witness for C6: pool of size 2, first attempt's fetch throws, attempts
remain, so the credential is now unavailable and the loop continues. -/
theorem forward_networkError_step_witness :
    isAvailableAt ((markKeyAsExhausted
        { keys := ["a", "b"], keyStates := [none, none], currentKeyIndex := 1 }
        0 none 5).keyStates.getD 0 none) 5 = false ∧
    forwardLoop (fun _ _ => FetchResult.networkError) 5 2 2 0
        { keys := ["a", "b"], keyStates := [none, none], currentKeyIndex := 0 } []
      = forwardLoop (fun _ _ => FetchResult.networkError) 5 2 1 1
          (markKeyAsExhausted
            { keys := ["a", "b"], keyStates := [none, none], currentKeyIndex := 1 }
            0 none 5) [0] := by
  have h := forward_networkError_step (fun _ _ => FetchResult.networkError) 5 2 1 0
    { keys := ["a", "b"], keyStates := [none, none], currentKeyIndex := 0 }
    { keys := ["a", "b"], keyStates := [none, none], currentKeyIndex := 1 }
    [] "a" 0 rfl (by decide) rfl
  exact ⟨h.1, h.2.2 (by decide)⟩

/-- C3: a pool of three fresh credentials against an upstream that answers
429 on every attempt — the handler performs exactly the three upstream calls
(key indices 0, 1, 2) and returns the third upstream 429 response itself,
with its status, status text and body intact, not the synthetic
total-exhaustion message. -/
theorem forward_three_429s :
    (handleRoutedRequest
      (fun _ _ => FetchResult.ok
        { status := 429, statusText := "Too Many Requests", body := "quota" }) 1000
      { keys := ["k0", "k1", "k2"], keyStates := [none, none, none],
        currentKeyIndex := 0 }).attempts = [0, 1, 2] ∧
    (handleRoutedRequest
      (fun _ _ => FetchResult.ok
        { status := 429, statusText := "Too Many Requests", body := "quota" }) 1000
      { keys := ["k0", "k1", "k2"], keyStates := [none, none, none],
        currentKeyIndex := 0 }).response
      = { status := 429, statusText := "Too Many Requests", body := "quota" } ∧
    (handleRoutedRequest
      (fun _ _ => FetchResult.ok
        { status := 429, statusText := "Too Many Requests", body := "quota" }) 1000
      { keys := ["k0", "k1", "k2"], keyStates := [none, none, none],
        currentKeyIndex := 0 }).response.body ≠ exhaustedBody := by
  refine ⟨by decide, by decide, by decide⟩

end Rotator
